import Mathlib

/-!
Verification of the case-convention engine and rewrite executor of
`rename.py`, a tool that renames an identifier across a file tree.

Strings are modelled as `List Char`.  The Python regular expressions in
`is_snake_case` and `is_camel_case` are embedded as recursive recognizers;
since `re.compile` is used without `re.MULTILINE`, the `$` anchor of those
patterns matches at the end of the string **or just before a single
trailing newline**, and the recognizers below reproduce exactly that
semantics.  The regexes involved are deterministic (no backtracking is
ever needed: each starred group starts with a character class disjoint
from the class that precedes it), so a greedy recursive descent computes
precisely the Python match result.
-/

/-- Character class `[a-z]` of the regexes in `rename.py`. -/
def isLower (c : Char) : Bool := 'a' ≤ c && c ≤ 'z'

/-- Character class `[A-Z]` of the regexes in `rename.py`. -/
def isUpper (c : Char) : Bool := 'A' ≤ c && c ≤ 'Z'

/-- Character class `[0-9]`. -/
def isDigit (c : Char) : Bool := '0' ≤ c && c ≤ '9'

/-- Character class `[a-z0-9]` of the regexes in `rename.py`. -/
def isLowerDigit (c : Char) : Bool := isLower c || isDigit c

/-- Python `str.upper()` on a single matched character.  The source only
ever applies `.upper()` to a character matched by `[a-z]`, where it is the
ASCII case shift. -/
def charUpper (c : Char) : Char :=
  if isLower c then Char.ofNat (c.toNat - 32) else c

/-- Python `str.lower()` on a single matched character.  The source only
ever applies `.lower()` to a character matched by `[A-Z]`, where it is the
ASCII case shift. -/
def charLower (c : Char) : Char :=
  if isUpper c then Char.ofNat (c.toNat + 32) else c

/-- State of the `snake_case` regex after the leading `[a-z]` has been
read: recognizes `[a-z0-9]*(_[a-z][a-z0-9]*)*$` where, as in Python,
`$` also matches just before a trailing newline. -/
def snakeAux : List Char → Bool
  | [] => true
  | c :: rest =>
    if isLowerDigit c then snakeAux rest
    else if c == '_' then
      match rest with
      | d :: rest2 => isLower d && snakeAux rest2
      | [] => false
    else c == '\n' && rest.isEmpty

/-- `is_snake_case` from `rename.py` (lines 90-138): Python
`re.match` of `[a-z][a-z0-9]*(_[a-z][a-z0-9]*)*$` against the string.
The unused optional `word_option` parameter of the Python function is
omitted.  -/
def is_snake_case : List Char → Bool
  | [] => false
  | c :: rest => isLower c && snakeAux rest

/-- The negative lookahead `(?![A-Z])` of the camel-case regex: true iff
the next character exists and is uppercase (so the lookahead fails). -/
def lookaheadUpper : List Char → Bool
  | [] => false
  | d :: _ => isUpper d

/-- State of the camel-case regex inside a word: recognizes
`[a-z0-9]*([A-Z][a-z0-9]+)*$` with Python's `$` semantics. -/
def camelAux : List Char → Bool
  | [] => true
  | c :: rest =>
    if isLowerDigit c then camelAux rest
    else if isUpper c then
      match rest with
      | d :: rest2 => isLowerDigit d && camelAux rest2
      | [] => false
    else c == '\n' && rest.isEmpty

/-- `is_camel_case` from `rename.py` (lines 141-183): Python `re.match`
of `[A-Z](?![A-Z])[a-z0-9]*([A-Z][a-z0-9]+)*$` against the string.  The
unused optional `word_option` parameter is omitted. -/
def is_camel_case : List Char → Bool
  | [] => false
  | c :: rest => isUpper c && !lookaheadUpper rest && camelAux rest

/-- The substitution `word_start.sub(lambda x: x.group().lstrip('_').upper(), ...)`
of `snake2camel`, scanning from a position greater than zero (where the
`\A` alternative of the pattern `(\A|_)[a-z]` can no longer match): each
occurrence of `_` followed by a lowercase letter is replaced by that
letter uppercased. -/
def snakeSub : List Char → List Char
  | [] => []
  | c :: rest =>
    if c == '_' then
      match rest with
      | d :: rest2 =>
        if isLower d then charUpper d :: snakeSub rest2
        else '_' :: snakeSub (d :: rest2)
      | [] => ['_']
    else c :: snakeSub rest

/-- `snake2camel` from `rename.py` (lines 186-212): if the argument is
not snake case it is returned intact, otherwise `re.sub` with pattern
`(\A|_)[a-z]` uppercases the first letter and each letter following an
underscore, dropping the underscore. -/
def snake2camel (id_name : List Char) : List Char :=
  if is_snake_case id_name then
    match id_name with
    | [] => []
    | c :: rest => if isLower c then charUpper c :: snakeSub rest else snakeSub (c :: rest)
  else id_name

/-- The substitution `word_start.sub(lambda x: '_' + x.group().lower(), ...)`
of `camel2snake`: every uppercase letter is replaced by an underscore
followed by its lowercase form. -/
def camelSub : List Char → List Char
  | [] => []
  | c :: rest =>
    if isUpper c then '_' :: charLower c :: camelSub rest
    else c :: camelSub rest

/-- `camel2snake` from `rename.py` (lines 215-238): if the argument is
not camel case it is returned intact, otherwise every uppercase letter is
replaced by `_` plus its lowercase form and leading underscores are
stripped (`lstrip('_')`). -/
def camel2snake (id_name : List Char) : List Char :=
  if is_camel_case id_name then (camelSub id_name).dropWhile (fun c => c == '_')
  else id_name

/-- Removes a single trailing newline from a string, if present. -/
def stripNL : List Char → List Char
  | [] => []
  | c :: rest => if c == '\n' && rest.isEmpty then [] else c :: stripNL rest

/-- Follows the spec's words: the part `[a-z0-9]*(_[a-z][a-z0-9]*)*$` of
the claimed snake-case grammar `^[a-z][a-z0-9]*(_[a-z][a-z0-9]*)*$`, with
`$` read as true end of string (no trailing newline allowed). -/
def snakeGrammarAux : List Char → Bool
  | [] => true
  | c :: rest =>
    if isLowerDigit c then snakeGrammarAux rest
    else if c == '_' then
      match rest with
      | d :: rest2 => isLower d && snakeGrammarAux rest2
      | [] => false
    else false

/-- Follows the spec's words: the claimed strict snake-case grammar
`^[a-z][a-z0-9]*(_[a-z][a-z0-9]*)*$` with `$` as true end of string. -/
def snakeGrammar : List Char → Bool
  | [] => false
  | c :: rest => isLower c && snakeGrammarAux rest

/-- Follows the spec's words: the part `[a-z0-9]*([A-Z][a-z0-9]+)*$` of
the claimed camel-case grammar, with `$` read as true end of string. -/
def camelGrammarAux : List Char → Bool
  | [] => true
  | c :: rest =>
    if isLowerDigit c then camelGrammarAux rest
    else if isUpper c then
      match rest with
      | d :: rest2 => isLowerDigit d && camelGrammarAux rest2
      | [] => false
    else false

/-- Follows the spec's words: the claimed strict camel-case grammar
`^[A-Z](?![A-Z])[a-z0-9]*([A-Z][a-z0-9]+)*$` with `$` as true end of
string. -/
def camelGrammar : List Char → Bool
  | [] => false
  | c :: rest => isUpper c && !lookaheadUpper rest && camelGrammarAux rest

/-- Remainder of a single-word snake identifier: `[a-z0-9]*` followed by
the end of the string or one trailing newline.  Such identifiers contain
no underscore. -/
def snakeNoUnd : List Char → Bool
  | [] => true
  | c :: rest => if isLowerDigit c then snakeNoUnd rest else c == '\n' && rest.isEmpty

/-- Like `snakeAux`, but every word introduced by an underscore must have
at least two characters (`_[a-z][a-z0-9][a-z0-9]*`). -/
def snakeAuxLong : List Char → Bool
  | [] => true
  | c :: rest =>
    if isLowerDigit c then snakeAuxLong rest
    else if c == '_' then
      match rest with
      | d :: e :: rest2 => isLower d && isLowerDigit e && snakeAuxLong (e :: rest2)
      | _ => false
    else c == '\n' && rest.isEmpty

/-- The snake-case identifiers whose conversion to camel case is
round-trip safe: either a single word, or an identifier all of whose
words (the first one included) have at least two characters. -/
def snakeSafe : List Char → Bool
  | [] => false
  | c :: rest =>
    isLower c &&
      (snakeNoUnd rest ||
        (match rest with
         | d :: rest2 => isLowerDigit d && snakeAuxLong rest2
         | [] => false))

/-- Word-boundary option `WHOLE_WORD` from `rename.py` (line 24). -/
def WHOLE_WORD : Nat := 2

/-- Word-boundary option `ALLOW_UNDERSCORES` from `rename.py` (line 25). -/
def ALLOW_UNDERSCORES : Nat := 1

/-- Word-boundary option `ANY_SEQUENCE` from `rename.py` (line 26). -/
def ANY_SEQUENCE : Nat := 0

/-- Python `line.replace(src, dest)`: literal, non-overlapping,
left-to-right replacement of every occurrence of `src` by `dest`.  With
an empty `src`, Python inserts `dest` before every character and once at
the end of the string. -/
def strReplace (src dest : List Char) : List Char → List Char
  | [] => if src.isEmpty then dest else []
  | c :: rest =>
    if src.isEmpty then dest ++ c :: strReplace src dest rest
    else if src.isPrefixOf (c :: rest) then
      dest ++ strReplace src dest (List.drop (src.length - 1) rest)
    else c :: strReplace src dest rest
termination_by l => l.length
decreasing_by
  all_goals simp [List.length_drop]
  all_goals omega

/-- `edit_line` from `rename.py` (lines 241-244): literal substitution
`line.replace(src, dest)`; the `word_option` parameter is ignored by the
body. -/
def edit_line (src dest : List Char) (word_option : Nat) (line : List Char) : List Char :=
  strReplace src dest line

/-- `edit_text` from `rename.py` (lines 247-250): apply `edit_line` to
every line. -/
def edit_text (src dest : List Char) (word_option : Nat)
    (text_lines : List (List Char)) : List (List Char) :=
  text_lines.map (edit_line src dest word_option)

/-- The string obtained by inserting `dest` before every character of the
argument and once after its last character. -/
def insertEverywhere (dest : List Char) : List Char → List Char
  | [] => dest
  | c :: rest => dest ++ c :: insertEverywhere dest rest

/-- A file of the modelled filesystem: its text content as a list of
lines and its permission bits. -/
structure FSFile where
  lines : List (List Char)
  mode : Nat

/-- The filesystem, mapping each path to the file stored there, if any. -/
def FileSys : Type := List Char → Option FSFile

/-- The candidate new path computed by `process_file` (lines 256-259):
literal substitution of `src` by `dest` inside the path, skipped when
text-only mode is requested. -/
def candidate_path (src dest : List Char) (word_option : Nat) (path : List Char)
    (text_only : Bool) : List Char :=
  if !text_only then edit_line src dest word_option path else path

/-- `process_file` from `rename.py` (lines 253-276).  The external
collaborator `difflib.unified_diff` is passed in as the function `udiff`
(arguments: original lines, transformed lines, from-file label, to-file
label).  The state is the filesystem plus the lines written to standard
output; `none` models the fatal error raised when the path cannot be
read.  In non-diff mode the transformed lines are written to the
candidate path, the original file's permission bits are copied over
(`shutil.copymode`), and the original path is unlinked when the candidate
path differs from it. -/
def process_file
    (udiff : List (List Char) → List (List Char) → List Char → List Char → List (List Char))
    (src dest : List Char) (word_option : Nat) (path : List Char)
    (diff text_only : Bool) (fs : FileSys) (stdout : List (List Char)) :
    Option (FileSys × List (List Char)) :=
  let new_path := candidate_path src dest word_option path text_only
  match fs path with
  | none => none
  | some f =>
    let in_lines := f.lines
    let out_lines := edit_text src dest word_option in_lines
    if diff then
      some (fs, stdout ++ udiff in_lines out_lines path new_path)
    else
      let fs1 : FileSys := fun p => if p = new_path then some ⟨out_lines, f.mode⟩ else fs p
      let fs2 : FileSys :=
        if new_path = path then fs1 else fun p => if p = path then none else fs1 p
      some (fs2, stdout)

/-- Two characters with the same code point are equal. -/
theorem char_toNat_inj {c d : Char} (h : c.toNat = d.toNat) : c = d :=
  Char.eq_of_val_eq (UInt32.ext h)

/-- Code point of `Char.ofNat` below the surrogate range. -/
theorem toNat_ofNat_valid {m : Nat} (h : m < 55296) : (Char.ofNat m).toNat = m := by
  simp [Char.ofNat, Nat.isValidChar, h, Char.ofNatAux, Char.toNat, UInt32.toNat,
    BitVec.toNat_ofNatLt]

/-- Membership in `[a-z]` as a code-point range. -/
theorem isLower_iff {c : Char} : isLower c = true ↔ 97 ≤ c.toNat ∧ c.toNat ≤ 122 := by
  simp only [isLower, Bool.and_eq_true, decide_eq_true_eq, Char.le_def, UInt32.le_def,
    BitVec.le_def]
  exact Iff.rfl

/-- Membership in `[A-Z]` as a code-point range. -/
theorem isUpper_iff {c : Char} : isUpper c = true ↔ 65 ≤ c.toNat ∧ c.toNat ≤ 90 := by
  simp only [isUpper, Bool.and_eq_true, decide_eq_true_eq, Char.le_def, UInt32.le_def,
    BitVec.le_def]
  exact Iff.rfl

/-- Membership in `[0-9]` as a code-point range. -/
theorem isDigit_iff {c : Char} : isDigit c = true ↔ 48 ≤ c.toNat ∧ c.toNat ≤ 57 := by
  simp only [isDigit, Bool.and_eq_true, decide_eq_true_eq, Char.le_def, UInt32.le_def,
    BitVec.le_def]
  exact Iff.rfl

/-- Membership in `[a-z0-9]` as a pair of code-point ranges. -/
theorem isLowerDigit_iff {c : Char} :
    isLowerDigit c = true ↔ (97 ≤ c.toNat ∧ c.toNat ≤ 122) ∨ (48 ≤ c.toNat ∧ c.toNat ≤ 57) := by
  simp only [isLowerDigit, Bool.or_eq_true, isLower_iff, isDigit_iff]

/-- Boolean disequality of characters follows from distinct code points. -/
theorem char_beq_false {c d : Char} (h : c.toNat ≠ d.toNat) : (c == d) = false := by
  cases hb : c == d
  · rfl
  · exact absurd (congrArg Char.toNat (eq_of_beq hb)) h

/-- A lowercase letter is not an uppercase letter. -/
theorem isUpper_of_isLower {c : Char} (h : isLower c = true) : isUpper c = false := by
  cases hb : isUpper c
  · rfl
  · have h1 := isLower_iff.mp h
    have h2 := isUpper_iff.mp hb
    omega

/-- A `[a-z0-9]` character is not uppercase. -/
theorem isUpper_of_isLowerDigit {c : Char} (h : isLowerDigit c = true) : isUpper c = false := by
  cases hb : isUpper c
  · rfl
  · have h1 := isLowerDigit_iff.mp h
    have h2 := isUpper_iff.mp hb
    omega

/-- A `[a-z0-9]` character is not an underscore. -/
theorem und_of_isLowerDigit {c : Char} (h : isLowerDigit c = true) : (c == '_') = false := by
  have h1 := isLowerDigit_iff.mp h
  have h2 : ('_').toNat = 95 := rfl
  exact char_beq_false (by omega)

/-- A `[a-z0-9]` character is not a newline. -/
theorem nl_of_isLowerDigit {c : Char} (h : isLowerDigit c = true) : (c == '\n') = false := by
  have h1 := isLowerDigit_iff.mp h
  have h2 : ('\n').toNat = 10 := rfl
  exact char_beq_false (by omega)

/-- A lowercase letter is not an underscore. -/
theorem und_of_isLower {c : Char} (h : isLower c = true) : (c == '_') = false := by
  have h1 := isLower_iff.mp h
  have h2 : ('_').toNat = 95 := rfl
  exact char_beq_false (by omega)

/-- Code point of the uppercased form of a lowercase letter. -/
theorem charUpper_toNat {c : Char} (h : isLower c = true) :
    (charUpper c).toNat = c.toNat - 32 := by
  rw [charUpper, if_pos h]
  exact toNat_ofNat_valid (by have := isLower_iff.mp h; omega)

/-- Code point of the lowercased form of an uppercase letter. -/
theorem charLower_toNat {c : Char} (h : isUpper c = true) :
    (charLower c).toNat = c.toNat + 32 := by
  rw [charLower, if_pos h]
  exact toNat_ofNat_valid (by have := isUpper_iff.mp h; omega)

/-- Uppercasing a lowercase letter yields an uppercase letter. -/
theorem isUpper_charUpper {c : Char} (h : isLower c = true) :
    isUpper (charUpper c) = true := by
  rw [isUpper_iff, charUpper_toNat h]
  have := isLower_iff.mp h
  omega

/-- Lowercasing an uppercase letter yields a lowercase letter. -/
theorem isLower_charLower {c : Char} (h : isUpper c = true) :
    isLower (charLower c) = true := by
  rw [isLower_iff, charLower_toNat h]
  have := isUpper_iff.mp h
  omega

/-- Uppercasing a lowercase letter leaves the `[a-z0-9]` class. -/
theorem isLowerDigit_charUpper {c : Char} (h : isLower c = true) :
    isLowerDigit (charUpper c) = false := by
  cases hb : isLowerDigit (charUpper c)
  · rfl
  · have h1 := isLowerDigit_iff.mp hb
    rw [charUpper_toNat h] at h1
    have := isLower_iff.mp h
    omega

/-- Lowercase-uppercase round trip on a lowercase letter. -/
theorem charLower_charUpper {c : Char} (h : isLower c = true) :
    charLower (charUpper c) = c := by
  apply char_toNat_inj
  rw [charLower_toNat (isUpper_charUpper h), charUpper_toNat h]
  have := isLower_iff.mp h
  omega

/-- Uppercase-lowercase round trip on an uppercase letter. -/
theorem charUpper_charLower {c : Char} (h : isUpper c = true) :
    charUpper (charLower c) = c := by
  apply char_toNat_inj
  rw [charUpper_toNat (isLower_charLower h), charLower_toNat h]
  have := isUpper_iff.mp h
  omega

/-- The lowercased form of an uppercase letter is not an underscore. -/
theorem und_of_charLower {c : Char} (h : isUpper c = true) :
    (charLower c == '_') = false :=
  und_of_isLower (isLower_charLower h)

/-- A boolean that is not true is false. -/
theorem bool_eq_false {b : Bool} (h : ¬b = true) : b = false := by
  cases b
  · rfl
  · exact absurd rfl h

/-- Unfolding lemma for `snakeAux` on a cons cell. -/
theorem snakeAux_cons (c : Char) (rest : List Char) :
    snakeAux (c :: rest) =
      (if isLowerDigit c then snakeAux rest
       else if c == '_' then
         match rest with
         | d :: rest2 => isLower d && snakeAux rest2
         | [] => false
       else c == '\n' && rest.isEmpty) := by
  rw [snakeAux.eq_def]

/-- Unfolding lemma for `camelAux` on a cons cell. -/
theorem camelAux_cons (c : Char) (rest : List Char) :
    camelAux (c :: rest) =
      (if isLowerDigit c then camelAux rest
       else if isUpper c then
         match rest with
         | d :: rest2 => isLowerDigit d && camelAux rest2
         | [] => false
       else c == '\n' && rest.isEmpty) := by
  rw [camelAux.eq_def]

/-- Unfolding lemma for `snakeSub` on a cons cell. -/
theorem snakeSub_cons (c : Char) (rest : List Char) :
    snakeSub (c :: rest) =
      (if c == '_' then
         match rest with
         | d :: rest2 =>
           if isLower d then charUpper d :: snakeSub rest2
           else '_' :: snakeSub (d :: rest2)
         | [] => ['_']
       else c :: snakeSub rest) := by
  rw [snakeSub.eq_def]

/-- Unfolding lemma for `snakeAuxLong` on a cons cell. -/
theorem snakeAuxLong_cons (c : Char) (rest : List Char) :
    snakeAuxLong (c :: rest) =
      (if isLowerDigit c then snakeAuxLong rest
       else if c == '_' then
         match rest with
         | d :: e :: rest2 => isLower d && isLowerDigit e && snakeAuxLong (e :: rest2)
         | _ => false
       else c == '\n' && rest.isEmpty) := by
  rw [snakeAuxLong.eq_def]

/-- Unfolding lemma for `snakeGrammarAux` on a cons cell. -/
theorem snakeGrammarAux_cons (c : Char) (rest : List Char) :
    snakeGrammarAux (c :: rest) =
      (if isLowerDigit c then snakeGrammarAux rest
       else if c == '_' then
         match rest with
         | d :: rest2 => isLower d && snakeGrammarAux rest2
         | [] => false
       else false) := by
  rw [snakeGrammarAux.eq_def]

/-- Unfolding lemma for `camelGrammarAux` on a cons cell. -/
theorem camelGrammarAux_cons (c : Char) (rest : List Char) :
    camelGrammarAux (c :: rest) =
      (if isLowerDigit c then camelGrammarAux rest
       else if isUpper c then
         match rest with
         | d :: rest2 => isLowerDigit d && camelGrammarAux rest2
         | [] => false
       else false) := by
  rw [camelGrammarAux.eq_def]

/-- Unfolding lemma for `snakeSafe` on a cons cell. -/
theorem snakeSafe_cons (c : Char) (rest : List Char) :
    snakeSafe (c :: rest) =
      (isLower c &&
        (snakeNoUnd rest ||
          (match rest with
           | d :: rest2 => isLowerDigit d && snakeAuxLong rest2
           | [] => false))) := by
  rw [snakeSafe.eq_def]

/-- If the camel-word state accepts `r`, the snake-word state accepts the
substituted string `camelSub r`. -/
theorem snakeAux_camelSub : ∀ r : List Char, camelAux r = true → snakeAux (camelSub r) = true := by
  intro r
  induction r using camelAux.induct with
  | case1 => intro _; rfl
  | case2 c rest hld ih =>
    intro h
    simp only [camelAux_cons, hld, if_true] at h
    simp only [camelSub, isUpper_of_isLowerDigit hld, if_false, Bool.false_eq_true,
      snakeAux_cons, hld, if_true]
    exact ih h
  | case3 c hld hup d rest2 ih =>
    intro h
    simp only [camelAux_cons, bool_eq_false hld, hup, if_false, if_true, Bool.false_eq_true,
      Bool.and_eq_true] at h
    obtain ⟨hd, hrest⟩ := h
    simp only [camelSub, hup, if_true, isUpper_of_isLowerDigit hd, if_false,
      Bool.false_eq_true]
    simp only [snakeAux_cons, (by decide : isLowerDigit '_' = false), if_false,
      Bool.false_eq_true, beq_self_eq_true, if_true, isLower_charLower hup, hd,
      Bool.true_and]
    exact ih hrest
  | case4 c hld hup =>
    intro h
    simp [camelAux_cons, bool_eq_false hld, hup] at h
  | case5 c rest hld hup =>
    intro h
    simp only [camelAux_cons, bool_eq_false hld, bool_eq_false hup, if_false,
      Bool.false_eq_true, Bool.and_eq_true, beq_iff_eq, List.isEmpty_iff] at h
    obtain ⟨rfl, rfl⟩ := h
    decide

/-- On a string accepted by the camel-word state, `snakeSub` undoes
`camelSub`. -/
theorem snakeSub_camelSub : ∀ r : List Char, camelAux r = true → snakeSub (camelSub r) = r := by
  intro r
  induction r using camelAux.induct with
  | case1 => intro _; rfl
  | case2 c rest hld ih =>
    intro h
    simp only [camelAux_cons, hld, if_true] at h
    simp only [camelSub, isUpper_of_isLowerDigit hld, if_false, Bool.false_eq_true]
    rw [snakeSub_cons]
    simp only [und_of_isLowerDigit hld, if_false, Bool.false_eq_true, List.cons.injEq,
      true_and]
    exact ih h
  | case3 c hld hup d rest2 ih =>
    intro h
    simp only [camelAux_cons, bool_eq_false hld, hup, if_false, if_true, Bool.false_eq_true,
      Bool.and_eq_true] at h
    obtain ⟨hd, hrest⟩ := h
    simp only [camelSub, hup, if_true, isUpper_of_isLowerDigit hd, if_false,
      Bool.false_eq_true]
    rw [snakeSub_cons]
    simp only [beq_self_eq_true, if_true, isLower_charLower hup, charUpper_charLower hup]
    rw [snakeSub_cons]
    simp only [und_of_isLowerDigit hd, if_false, Bool.false_eq_true, List.cons.injEq,
      true_and]
    exact ih hrest
  | case4 c hld hup =>
    intro h
    simp [camelAux_cons, bool_eq_false hld, hup] at h
  | case5 c rest hld hup =>
    intro h
    simp only [camelAux_cons, bool_eq_false hld, bool_eq_false hup, if_false,
      Bool.false_eq_true, Bool.and_eq_true, beq_iff_eq, List.isEmpty_iff] at h
    obtain ⟨rfl, rfl⟩ := h
    decide

/-- Shared fact behind claims C2 and C3: applied to a string accepted by
`is_camel_case`, `camel2snake` produces a string accepted by
`is_snake_case`, and `snake2camel` maps the result back to the original
string. -/
theorem camel_roundtrip : ∀ s : List Char, is_camel_case s = true →
    is_snake_case (camel2snake s) = true ∧ snake2camel (camel2snake s) = s := by
  intro s h
  match s with
  | [] => simp [is_camel_case] at h
  | c :: rest =>
    have h2 := h
    simp only [is_camel_case, Bool.and_eq_true, Bool.not_eq_true] at h2
    obtain ⟨⟨hup, hla⟩, hca⟩ := h2
    have hres : camel2snake (c :: rest) = charLower c :: camelSub rest := by
      rw [camel2snake, if_pos h]
      simp [camelSub, hup, List.dropWhile, und_of_charLower hup]
    have hsnake : is_snake_case (charLower c :: camelSub rest) = true := by
      simp only [is_snake_case, Bool.and_eq_true]
      exact ⟨isLower_charLower hup, snakeAux_camelSub rest hca⟩
    refine ⟨hres ▸ hsnake, ?_⟩
    rw [hres, snake2camel, if_pos hsnake]
    simp only [isLower_charLower hup, if_true, charUpper_charLower hup,
      snakeSub_camelSub rest hca]

/-- A single-word remainder is accepted by the snake-word state. -/
theorem snakeAux_of_noUnd : ∀ r : List Char, snakeNoUnd r = true → snakeAux r = true := by
  intro r
  induction r using snakeNoUnd.induct with
  | case1 => intro _; rfl
  | case2 c rest hld ih =>
    intro h
    simp only [snakeNoUnd, hld, if_true] at h
    rw [snakeAux_cons]
    simp only [hld, if_true]
    exact ih h
  | case3 c rest hld =>
    intro h
    simp only [snakeNoUnd, bool_eq_false hld, if_false, Bool.false_eq_true,
      Bool.and_eq_true, beq_iff_eq, List.isEmpty_iff] at h
    obtain ⟨rfl, rfl⟩ := h
    decide

/-- A single-word remainder is accepted by the camel-word state. -/
theorem camelAux_of_noUnd : ∀ r : List Char, snakeNoUnd r = true → camelAux r = true := by
  intro r
  induction r using snakeNoUnd.induct with
  | case1 => intro _; rfl
  | case2 c rest hld ih =>
    intro h
    simp only [snakeNoUnd, hld, if_true] at h
    rw [camelAux_cons]
    simp only [hld, if_true]
    exact ih h
  | case3 c rest hld =>
    intro h
    simp only [snakeNoUnd, bool_eq_false hld, if_false, Bool.false_eq_true,
      Bool.and_eq_true, beq_iff_eq, List.isEmpty_iff] at h
    obtain ⟨rfl, rfl⟩ := h
    decide

/-- `snakeSub` does not change a single-word remainder. -/
theorem snakeSub_of_noUnd : ∀ r : List Char, snakeNoUnd r = true → snakeSub r = r := by
  intro r
  induction r using snakeNoUnd.induct with
  | case1 => intro _; rfl
  | case2 c rest hld ih =>
    intro h
    simp only [snakeNoUnd, hld, if_true] at h
    rw [snakeSub_cons]
    simp only [und_of_isLowerDigit hld, if_false, Bool.false_eq_true, List.cons.injEq,
      true_and]
    exact ih h
  | case3 c rest hld =>
    intro h
    simp only [snakeNoUnd, bool_eq_false hld, if_false, Bool.false_eq_true,
      Bool.and_eq_true, beq_iff_eq, List.isEmpty_iff] at h
    obtain ⟨rfl, rfl⟩ := h
    decide

/-- `camelSub` does not change a single-word remainder. -/
theorem camelSub_of_noUnd : ∀ r : List Char, snakeNoUnd r = true → camelSub r = r := by
  intro r
  induction r using snakeNoUnd.induct with
  | case1 => intro _; rfl
  | case2 c rest hld ih =>
    intro h
    simp only [snakeNoUnd, hld, if_true] at h
    simp only [camelSub, isUpper_of_isLowerDigit hld, if_false, Bool.false_eq_true,
      List.cons.injEq, true_and]
    exact ih h
  | case3 c rest hld =>
    intro h
    simp only [snakeNoUnd, bool_eq_false hld, if_false, Bool.false_eq_true,
      Bool.and_eq_true, beq_iff_eq, List.isEmpty_iff] at h
    obtain ⟨rfl, rfl⟩ := h
    decide

/-- A single-word remainder does not start with an uppercase letter. -/
theorem lookahead_of_noUnd : ∀ r : List Char, snakeNoUnd r = true → lookaheadUpper r = false := by
  intro r h
  match r with
  | [] => rfl
  | c :: rest =>
    simp only [lookaheadUpper]
    by_cases hld : isLowerDigit c = true
    · exact isUpper_of_isLowerDigit hld
    · simp only [snakeNoUnd, bool_eq_false hld, if_false, Bool.false_eq_true,
        Bool.and_eq_true, beq_iff_eq, List.isEmpty_iff] at h
      obtain ⟨rfl, rfl⟩ := h
      decide

/-- A remainder whose underscore-introduced words are all long is
accepted by the snake-word state. -/
theorem snakeAux_of_long : ∀ r : List Char, snakeAuxLong r = true → snakeAux r = true := by
  intro r
  induction r using snakeAuxLong.induct with
  | case1 => intro _; rfl
  | case2 c rest hld ih =>
    intro h
    rw [snakeAuxLong_cons] at h
    simp only [hld, if_true] at h
    rw [snakeAux_cons]
    simp only [hld, if_true]
    exact ih h
  | case3 c hld hund d e rest2 ih =>
    intro h
    rw [snakeAuxLong_cons] at h
    simp only [bool_eq_false hld, if_false, hund, if_true, Bool.false_eq_true,
      Bool.and_eq_true] at h
    obtain ⟨⟨hd, he⟩, hrest⟩ := h
    rw [snakeAux_cons]
    simp only [bool_eq_false hld, if_false, hund, if_true, Bool.false_eq_true, hd,
      Bool.true_and]
    exact ih hrest
  | case4 c rest hld hund hshort =>
    intro h
    rw [snakeAuxLong_cons] at h
    simp only [bool_eq_false hld, if_false, hund, if_true, Bool.false_eq_true] at h
  | case5 c rest hld hund =>
    intro h
    rw [snakeAuxLong_cons] at h
    simp only [bool_eq_false hld, bool_eq_false hund, if_false, Bool.false_eq_true,
      Bool.and_eq_true, beq_iff_eq, List.isEmpty_iff] at h
    obtain ⟨rfl, rfl⟩ := h
    decide

/-- After `snakeSub`, a remainder whose underscore-introduced words are
all long is accepted by the camel-word state. -/
theorem camelAux_snakeSub_of_long :
    ∀ r : List Char, snakeAuxLong r = true → camelAux (snakeSub r) = true := by
  intro r
  induction r using snakeAuxLong.induct with
  | case1 => intro _; rfl
  | case2 c rest hld ih =>
    intro h
    rw [snakeAuxLong_cons] at h
    simp only [hld, if_true] at h
    rw [snakeSub_cons]
    simp only [und_of_isLowerDigit hld, if_false, Bool.false_eq_true]
    rw [camelAux_cons]
    simp only [hld, if_true]
    exact ih h
  | case3 c hld hund d e rest2 ih =>
    intro h
    rw [snakeAuxLong_cons] at h
    simp only [bool_eq_false hld, if_false, hund, if_true, Bool.false_eq_true,
      Bool.and_eq_true] at h
    obtain ⟨⟨hd, he⟩, hrest⟩ := h
    have hx := ih hrest
    rw [snakeSub_cons] at hx
    simp only [und_of_isLowerDigit he, if_false, Bool.false_eq_true] at hx
    rw [camelAux_cons] at hx
    simp only [he, if_true] at hx
    rw [snakeSub_cons]
    simp only [hund, if_true, hd]
    rw [snakeSub_cons]
    simp only [und_of_isLowerDigit he, if_false, Bool.false_eq_true]
    rw [camelAux_cons]
    simp only [isLowerDigit_charUpper hd, if_false, Bool.false_eq_true,
      isUpper_charUpper hd, if_true, he, Bool.true_and]
    exact hx
  | case4 c rest hld hund hshort =>
    intro h
    rw [snakeAuxLong_cons] at h
    simp only [bool_eq_false hld, if_false, hund, if_true, Bool.false_eq_true] at h
  | case5 c rest hld hund =>
    intro h
    rw [snakeAuxLong_cons] at h
    simp only [bool_eq_false hld, bool_eq_false hund, if_false, Bool.false_eq_true,
      Bool.and_eq_true, beq_iff_eq, List.isEmpty_iff] at h
    obtain ⟨rfl, rfl⟩ := h
    decide

/-- On a remainder whose underscore-introduced words are all long,
`camelSub` undoes `snakeSub`. -/
theorem camelSub_snakeSub_of_long :
    ∀ r : List Char, snakeAuxLong r = true → camelSub (snakeSub r) = r := by
  intro r
  induction r using snakeAuxLong.induct with
  | case1 => intro _; rfl
  | case2 c rest hld ih =>
    intro h
    rw [snakeAuxLong_cons] at h
    simp only [hld, if_true] at h
    rw [snakeSub_cons]
    simp only [und_of_isLowerDigit hld, if_false, Bool.false_eq_true]
    simp only [camelSub, isUpper_of_isLowerDigit hld, if_false, Bool.false_eq_true,
      List.cons.injEq, true_and]
    exact ih h
  | case3 c hld hund d e rest2 ih =>
    intro h
    rw [snakeAuxLong_cons] at h
    simp only [bool_eq_false hld, if_false, hund, if_true, Bool.false_eq_true,
      Bool.and_eq_true] at h
    obtain ⟨⟨hd, he⟩, hrest⟩ := h
    have hc : c = '_' := eq_of_beq hund
    subst hc
    have hx := ih hrest
    rw [snakeSub_cons] at hx
    simp only [und_of_isLowerDigit he, if_false, Bool.false_eq_true] at hx
    simp only [camelSub, isUpper_of_isLowerDigit he, if_false, Bool.false_eq_true,
      List.cons.injEq, true_and] at hx
    rw [snakeSub_cons]
    simp only [beq_self_eq_true, if_true, hd]
    rw [snakeSub_cons]
    simp only [und_of_isLowerDigit he, if_false, Bool.false_eq_true]
    simp only [camelSub, isUpper_charUpper hd, if_true, isUpper_of_isLowerDigit he,
      if_false, Bool.false_eq_true, charLower_charUpper hd, List.cons.injEq, true_and]
    exact hx
  | case4 c rest hld hund hshort =>
    intro h
    rw [snakeAuxLong_cons] at h
    simp only [bool_eq_false hld, if_false, hund, if_true, Bool.false_eq_true] at h
  | case5 c rest hld hund =>
    intro h
    rw [snakeAuxLong_cons] at h
    simp only [bool_eq_false hld, bool_eq_false hund, if_false, Bool.false_eq_true,
      Bool.and_eq_true, beq_iff_eq, List.isEmpty_iff] at h
    obtain ⟨rfl, rfl⟩ := h
    decide

/-- A safe snake identifier is accepted by `is_snake_case`. -/
theorem is_snake_of_safe : ∀ s : List Char, snakeSafe s = true → is_snake_case s = true := by
  intro s h
  match s with
  | [] => simp [snakeSafe] at h
  | c :: rest =>
    rw [snakeSafe_cons] at h
    simp only [Bool.and_eq_true, Bool.or_eq_true] at h
    obtain ⟨hc, hrest⟩ := h
    simp only [is_snake_case, Bool.and_eq_true]
    refine ⟨hc, ?_⟩
    rcases hrest with hno | hlong
    · exact snakeAux_of_noUnd rest hno
    · match rest, hlong with
      | [], hl => simp at hl
      | d :: rest2, hl =>
        simp only [Bool.and_eq_true] at hl
        obtain ⟨hd, h2⟩ := hl
        rw [snakeAux_cons]
        simp only [hd, if_true]
        exact snakeAux_of_long rest2 h2

/-- Shared fact behind claims C1 and C3: a safe snake identifier (single
word, or all words of length at least two) converts under `snake2camel`
to a string accepted by `is_camel_case`, and `camel2snake` maps the
result back to the original string. -/
theorem snake_safe_roundtrip : ∀ s : List Char, snakeSafe s = true →
    is_camel_case (snake2camel s) = true ∧ camel2snake (snake2camel s) = s := by
  intro s h
  match s with
  | [] => simp [snakeSafe] at h
  | c :: rest =>
    have hsnake := is_snake_of_safe (c :: rest) h
    rw [snakeSafe_cons] at h
    simp only [Bool.and_eq_true, Bool.or_eq_true] at h
    obtain ⟨hc, hrest⟩ := h
    have hconv : snake2camel (c :: rest) = charUpper c :: snakeSub rest := by
      rw [snake2camel, if_pos hsnake]
      simp only [hc, if_true]
    have hfacts : lookaheadUpper (snakeSub rest) = false ∧ camelAux (snakeSub rest) = true ∧
        camelSub (snakeSub rest) = rest := by
      rcases hrest with hno | hlong
      · rw [snakeSub_of_noUnd rest hno]
        exact ⟨lookahead_of_noUnd rest hno, camelAux_of_noUnd rest hno,
          camelSub_of_noUnd rest hno⟩
      · match rest, hlong with
        | [], hl => simp at hl
        | d :: rest2, hl =>
          simp only [Bool.and_eq_true] at hl
          obtain ⟨hd, h2⟩ := hl
          rw [snakeSub_cons]
          simp only [und_of_isLowerDigit hd, if_false, Bool.false_eq_true]
          refine ⟨?_, ?_, ?_⟩
          · simp only [lookaheadUpper, isUpper_of_isLowerDigit hd]
          · rw [camelAux_cons]
            simp only [hd, if_true]
            exact camelAux_snakeSub_of_long rest2 h2
          · simp only [camelSub, isUpper_of_isLowerDigit hd, if_false, Bool.false_eq_true,
              List.cons.injEq, true_and]
            exact camelSub_snakeSub_of_long rest2 h2
    obtain ⟨hla, hca, hcs⟩ := hfacts
    have hcamel : is_camel_case (charUpper c :: snakeSub rest) = true := by
      simp only [is_camel_case, Bool.and_eq_true, isUpper_charUpper hc, hla, hca,
        Bool.not_false, and_self]
    refine ⟨hconv ▸ hcamel, ?_⟩
    rw [hconv, camel2snake, if_pos hcamel]
    simp only [camelSub, isUpper_charUpper hc, if_true, charLower_charUpper hc]
    simp only [List.dropWhile, beq_self_eq_true, if_true, und_of_isLower hc, if_false,
      Bool.false_eq_true, List.cons.injEq, true_and]
    exact hcs

/-- The snake-word state equals the strict spec grammar applied to the
string with one trailing newline removed. -/
theorem snakeAux_stripNL : ∀ r : List Char, snakeAux r = snakeGrammarAux (stripNL r) := by
  intro r
  induction r using snakeAux.induct with
  | case1 => rfl
  | case2 c rest hld ih =>
    rw [snakeAux_cons, stripNL]
    simp only [hld, if_true, nl_of_isLowerDigit hld, Bool.false_and, if_false,
      Bool.false_eq_true]
    rw [snakeGrammarAux_cons]
    simp only [hld, if_true]
    exact ih
  | case3 c hld hund d rest2 ih =>
    have hc := eq_of_beq hund
    subst hc
    by_cases hdn : (d == '\n' && rest2.isEmpty) = true
    · simp only [Bool.and_eq_true, beq_iff_eq, List.isEmpty_iff] at hdn
      obtain ⟨rfl, rfl⟩ := hdn
      decide
    · have hdn2 := bool_eq_false hdn
      rw [snakeAux_cons]
      simp only [(by decide : isLowerDigit '_' = false), if_false, Bool.false_eq_true,
        beq_self_eq_true, if_true]
      rw [stripNL]
      simp only [(by decide : ('_' == '\n') = false), Bool.false_and, if_false,
        Bool.false_eq_true]
      rw [stripNL, hdn2]
      simp only [if_false, Bool.false_eq_true]
      rw [snakeGrammarAux_cons]
      simp only [(by decide : isLowerDigit '_' = false), if_false, Bool.false_eq_true,
        beq_self_eq_true, if_true]
      rw [ih]
  | case4 c hld hund =>
    have hc := eq_of_beq hund
    subst hc
    decide
  | case5 c rest hld hund =>
    by_cases hdn : (c == '\n' && rest.isEmpty) = true
    · simp only [Bool.and_eq_true, beq_iff_eq, List.isEmpty_iff] at hdn
      obtain ⟨rfl, rfl⟩ := hdn
      decide
    · have hdn2 := bool_eq_false hdn
      rw [snakeAux_cons]
      simp only [bool_eq_false hld, if_false, bool_eq_false hund, Bool.false_eq_true, hdn2]
      rw [stripNL, hdn2]
      simp only [if_false, Bool.false_eq_true]
      rw [snakeGrammarAux_cons]
      simp only [bool_eq_false hld, if_false, bool_eq_false hund, Bool.false_eq_true]

/-- The camel-word state equals the strict spec grammar applied to the
string with one trailing newline removed. -/
theorem camelAux_stripNL : ∀ r : List Char, camelAux r = camelGrammarAux (stripNL r) := by
  intro r
  induction r using camelAux.induct with
  | case1 => rfl
  | case2 c rest hld ih =>
    rw [camelAux_cons, stripNL]
    simp only [hld, if_true, nl_of_isLowerDigit hld, Bool.false_and, if_false,
      Bool.false_eq_true]
    rw [camelGrammarAux_cons]
    simp only [hld, if_true]
    exact ih
  | case3 c hld hup d rest2 ih =>
    have hcn : (c == '\n') = false := by
      have h1 := isUpper_iff.mp hup
      exact char_beq_false (by have h2 : ('\n').toNat = 10 := rfl; omega)
    by_cases hdn : (d == '\n' && rest2.isEmpty) = true
    · simp only [Bool.and_eq_true, beq_iff_eq, List.isEmpty_iff] at hdn
      obtain ⟨rfl, rfl⟩ := hdn
      rw [camelAux_cons]
      simp only [bool_eq_false hld, if_false, hup, if_true, Bool.false_eq_true,
        (by decide : isLowerDigit '\n' = false), Bool.false_and]
      rw [stripNL]
      simp only [hcn, Bool.false_and, if_false, Bool.false_eq_true]
      rw [stripNL]
      simp only [beq_self_eq_true, List.isEmpty_nil, Bool.and_self, if_true]
      rw [camelGrammarAux_cons]
      simp only [bool_eq_false hld, if_false, hup, if_true, Bool.false_eq_true]
    · have hdn2 := bool_eq_false hdn
      rw [camelAux_cons]
      simp only [bool_eq_false hld, if_false, hup, if_true, Bool.false_eq_true]
      rw [stripNL]
      simp only [hcn, Bool.false_and, if_false, Bool.false_eq_true]
      rw [stripNL, hdn2]
      simp only [if_false, Bool.false_eq_true]
      rw [camelGrammarAux_cons]
      simp only [bool_eq_false hld, if_false, hup, if_true, Bool.false_eq_true]
      rw [ih]
  | case4 c hld hup =>
    have hcn : (c == '\n') = false := by
      have h1 := isUpper_iff.mp hup
      exact char_beq_false (by have h2 : ('\n').toNat = 10 := rfl; omega)
    rw [camelAux_cons]
    simp only [bool_eq_false hld, if_false, hup, if_true, Bool.false_eq_true]
    rw [stripNL]
    simp only [hcn, Bool.false_and, if_false, Bool.false_eq_true]
    rw [camelGrammarAux_cons]
    simp only [bool_eq_false hld, if_false, hup, if_true, Bool.false_eq_true, stripNL]
  | case5 c rest hld hup =>
    by_cases hdn : (c == '\n' && rest.isEmpty) = true
    · simp only [Bool.and_eq_true, beq_iff_eq, List.isEmpty_iff] at hdn
      obtain ⟨rfl, rfl⟩ := hdn
      decide
    · have hdn2 := bool_eq_false hdn
      rw [camelAux_cons]
      simp only [bool_eq_false hld, if_false, bool_eq_false hup, Bool.false_eq_true, hdn2]
      rw [stripNL, hdn2]
      simp only [if_false, Bool.false_eq_true]
      rw [camelGrammarAux_cons]
      simp only [bool_eq_false hld, if_false, bool_eq_false hup, Bool.false_eq_true]

/-- Removing a trailing newline does not change whether the first
character is uppercase. -/
theorem lookahead_stripNL : ∀ r : List Char, lookaheadUpper (stripNL r) = lookaheadUpper r := by
  intro r
  match r with
  | [] => rfl
  | c :: rest =>
    by_cases hdn : (c == '\n' && rest.isEmpty) = true
    · simp only [Bool.and_eq_true, beq_iff_eq, List.isEmpty_iff] at hdn
      obtain ⟨rfl, rfl⟩ := hdn
      decide
    · rw [stripNL, bool_eq_false hdn]
      simp only [if_false, Bool.false_eq_true, lookaheadUpper]

/-- `is_snake_case` accepts exactly the strings that match the strict
spec grammar after one trailing newline, if present, is removed. -/
theorem is_snake_case_stripNL : ∀ s : List Char, is_snake_case s = snakeGrammar (stripNL s) := by
  intro s
  match s with
  | [] => rfl
  | c :: rest =>
    by_cases hdn : (c == '\n' && rest.isEmpty) = true
    · simp only [Bool.and_eq_true, beq_iff_eq, List.isEmpty_iff] at hdn
      obtain ⟨rfl, rfl⟩ := hdn
      decide
    · rw [stripNL, bool_eq_false hdn]
      simp only [if_false, Bool.false_eq_true]
      simp only [is_snake_case, snakeGrammar, snakeAux_stripNL rest]

/-- `is_camel_case` accepts exactly the strings that match the strict
spec grammar after one trailing newline, if present, is removed. -/
theorem is_camel_case_stripNL : ∀ s : List Char, is_camel_case s = camelGrammar (stripNL s) := by
  intro s
  match s with
  | [] => rfl
  | c :: rest =>
    by_cases hdn : (c == '\n' && rest.isEmpty) = true
    · simp only [Bool.and_eq_true, beq_iff_eq, List.isEmpty_iff] at hdn
      obtain ⟨rfl, rfl⟩ := hdn
      decide
    · rw [stripNL, bool_eq_false hdn]
      simp only [if_false, Bool.false_eq_true]
      simp only [is_camel_case, camelGrammar, camelAux_stripNL rest, lookahead_stripNL rest]

/-- Python replacement with an empty search string inserts the
replacement at every character boundary. -/
theorem strReplace_nil_src : ∀ (dest l : List Char),
    strReplace [] dest l = insertEverywhere dest l := by
  intro dest l
  induction l with
  | nil => simp [strReplace, insertEverywhere]
  | cons c rest ih => simp [strReplace, insertEverywhere, ih]

/-- Length of `insertEverywhere`. -/
theorem length_insertEverywhere : ∀ (dest l : List Char),
    (insertEverywhere dest l).length = l.length * dest.length + dest.length + l.length := by
  intro dest l
  induction l with
  | nil => simp [insertEverywhere]
  | cons c rest ih =>
    simp only [insertEverywhere, List.length_append, List.length_cons, ih]
    ring

/-- Inserting a non-empty string at every boundary changes the string. -/
theorem insertEverywhere_ne (dest l : List Char) (h : dest ≠ []) :
    insertEverywhere dest l ≠ l := by
  intro heq
  have h1 := congrArg List.length heq
  rw [length_insertEverywhere] at h1
  have h2 : 0 < dest.length := List.length_pos.mpr h
  omega

-- Doctests of `is_snake_case` from the source.
example : is_snake_case [] = false := by decide
example : is_snake_case ['_'] = false := by decide
example : is_snake_case ['h'] = true := by decide
example : is_snake_case "hello_world".data = true := by decide
example : is_snake_case " hello_world ".data = false := by decide
example : is_snake_case "_hello".data = false := by decide
example : is_snake_case "hello_".data = false := by decide
example : is_snake_case "__hello_world__".data = false := by decide
example : is_snake_case "_hello6_wor7d_".data = false := by decide
example : is_snake_case "hello6_wor7d".data = true := by decide
example : is_snake_case "hello__world".data = false := by decide
example : is_snake_case "hello-world".data = false := by decide
example : is_snake_case "HelloWorld".data = false := by decide
example : is_snake_case "ab6".data = true := by decide
example : is_snake_case "ab_6".data = false := by decide
example : is_snake_case "6_ab".data = false := by decide
example : is_snake_case "ab_6_ab6".data = false := by decide

-- Doctests of `is_camel_case` from the source.
example : is_camel_case [] = false := by decide
example : is_camel_case ['_'] = false := by decide
example : is_camel_case ['h'] = false := by decide
example : is_camel_case ['H'] = true := by decide
example : is_camel_case "HW".data = false := by decide
example : is_camel_case "hW".data = false := by decide
example : is_camel_case "HelloWorld".data = true := by decide
example : is_camel_case "HWorld".data = false := by decide
example : is_camel_case "Hello6orld".data = true := by decide
example : is_camel_case "hello_world".data = false := by decide
example : is_camel_case "_Hello".data = false := by decide
example : is_camel_case "Hello_".data = false := by decide
example : is_camel_case "hello-world".data = false := by decide
example : is_camel_case "HelloGoodWorld77".data = true := by decide

-- Doctests of `snake2camel` from the source.
example : snake2camel "hello_world".data = "HelloWorld".data := by decide
example : snake2camel "HelloWorld".data = "HelloWorld".data := by decide
example : snake2camel "hello9".data = "Hello9".data := by decide
example : snake2camel "hello9world".data = "Hello9world".data := by decide
example : snake2camel "hello9_world".data = "Hello9World".data := by decide
example : snake2camel ['h'] = ['H'] := by decide
example : snake2camel "hw".data = "Hw".data := by decide
example : snake2camel "hello_good_world77".data = "HelloGoodWorld77".data := by decide

-- Doctests of `camel2snake` from the source.
example : camel2snake "HelloWorld".data = "hello_world".data := by decide
example : camel2snake "hello_world".data = "hello_world".data := by decide
example : camel2snake "Hello8orld".data = "hello8orld".data := by decide
example : camel2snake ['H'] = ['h'] := by decide
example : camel2snake "Hw".data = "hw".data := by decide
example : camel2snake "HelloGoodWorld77".data = "hello_good_world77".data := by decide

-- Behaviour on a trailing newline (Python `$` matches before it).
example : is_snake_case "h\n".data = true := by decide
example : is_camel_case "H\n".data = true := by decide
example : is_snake_case "h\n\n".data = false := by decide

/-- C1 counterexample: the string a_b is accepted by `is_snake_case`,
but converting it to camel case and back does not return it: it becomes
AB, which `is_camel_case` rejects, so `camel2snake` leaves AB intact. -/
theorem C1_counterexample :
    is_snake_case ['a', '_', 'b'] = true ∧
      camel2snake (snake2camel ['a', '_', 'b']) ≠ ['a', '_', 'b'] := by
  decide

/-- C1 (amended): for every string accepted by `is_snake_case` that is a
single word or all of whose words, the first included, have at least two
characters, converting to camel case and back is the identity. -/
theorem C1_snake_roundtrip : ∀ s : List Char, is_snake_case s = true → snakeSafe s = true →
    camel2snake (snake2camel s) = s :=
  fun s _ h2 => (snake_safe_roundtrip s h2).2

/-- C1 witness: the amended round trip at the concrete input ab_cd. -/
theorem C1_witness :
    is_snake_case ['a', 'b', '_', 'c', 'd'] = true ∧
      snakeSafe ['a', 'b', '_', 'c', 'd'] = true ∧
      camel2snake (snake2camel ['a', 'b', '_', 'c', 'd']) = ['a', 'b', '_', 'c', 'd'] :=
  ⟨by decide, by decide, C1_snake_roundtrip ['a', 'b', '_', 'c', 'd'] (by decide) (by decide)⟩

/-- C2: for every string accepted by `is_camel_case`, converting it to
snake case and back is the identity. -/
theorem C2_camel_roundtrip : ∀ s : List Char, is_camel_case s = true →
    snake2camel (camel2snake s) = s :=
  fun s h => (camel_roundtrip s h).2

/-- C2 witness: the round trip at the concrete input HelloGoodWorld77. -/
theorem C2_witness :
    is_camel_case "HelloGoodWorld77".data = true ∧
      snake2camel (camel2snake "HelloGoodWorld77".data) = "HelloGoodWorld77".data :=
  ⟨by decide, C2_camel_roundtrip "HelloGoodWorld77".data (by decide)⟩

/-- C3 counterexample: a_b is accepted by `is_snake_case` but its
conversion AB is rejected by `is_camel_case`, so the conversions do not
map each class into the other on all inputs. -/
theorem C3_counterexample :
    is_snake_case ['a', '_', 'b'] = true ∧
      is_camel_case (snake2camel ['a', '_', 'b']) = false := by
  decide

/-- C3 (amended): `camel2snake` maps every camel-case string to a
snake-case string; `snake2camel` maps a snake-case string to a camel-case
string provided the input is a single word or all of its words, the first
included, have at least two characters. -/
theorem C3_conversions_classify : ∀ s t : List Char,
    (is_snake_case s = true → snakeSafe s = true → is_camel_case (snake2camel s) = true) ∧
      (is_camel_case t = true → is_snake_case (camel2snake t) = true) :=
  fun s t =>
    ⟨fun _ h2 => (snake_safe_roundtrip s h2).1, fun h => (camel_roundtrip t h).1⟩

/-- C3 witness: both directions at the concrete inputs ab_cd and AbCd. -/
theorem C3_witness :
    is_snake_case ['a', 'b', '_', 'c', 'd'] = true ∧
      snakeSafe ['a', 'b', '_', 'c', 'd'] = true ∧
      is_camel_case (snake2camel ['a', 'b', '_', 'c', 'd']) = true ∧
      is_camel_case ['A', 'b', 'C', 'd'] = true ∧
      is_snake_case (camel2snake ['A', 'b', 'C', 'd']) = true :=
  ⟨by decide, by decide,
    (C3_conversions_classify ['a', 'b', '_', 'c', 'd'] ['A', 'b', 'C', 'd']).1
      (by decide) (by decide),
    by decide,
    (C3_conversions_classify ['a', 'b', '_', 'c', 'd'] ['A', 'b', 'C', 'd']).2 (by decide)⟩

/-- C4 counterexample: the string h followed by a newline is accepted by
`is_snake_case` (Python `$` matches before a trailing newline), although
the strict grammar of the claim rejects it. -/
theorem C4_counterexample :
    is_snake_case ['h', '\n'] = true ∧ snakeGrammar ['h', '\n'] = false := by
  decide

/-- C4 (amended): `is_snake_case` is a total boolean predicate that
accepts a string exactly when the string, after removing one trailing
newline if present, matches `^[a-z][a-z0-9]*(_[a-z][a-z0-9]*)*$`; in
particular a valid identifier followed by one newline is accepted. -/
theorem C4_snake_grammar : ∀ s : List Char, is_snake_case s = snakeGrammar (stripNL s) :=
  is_snake_case_stripNL

/-- C5 counterexample: the string H followed by a newline is accepted by
`is_camel_case` (Python `$` matches before a trailing newline), although
the strict grammar of the claim rejects it. -/
theorem C5_counterexample :
    is_camel_case ['H', '\n'] = true ∧ camelGrammar ['H', '\n'] = false := by
  decide

/-- C5 (amended): `is_camel_case` is a total boolean predicate that
accepts a string exactly when the string, after removing one trailing
newline if present, matches `^[A-Z](?![A-Z])[a-z0-9]*([A-Z][a-z0-9]+)*$`;
in particular a valid identifier followed by one newline is accepted. -/
theorem C5_camel_grammar : ∀ s : List Char, is_camel_case s = camelGrammar (stripNL s) :=
  is_camel_case_stripNL

/-- C6: strings rejected by the matching classifier pass through the
conversions unchanged. -/
theorem C6_nonconforming_identity : ∀ s t : List Char,
    is_snake_case s = false → is_camel_case t = false →
      snake2camel s = s ∧ camel2snake t = t := by
  intro s t hs ht
  constructor
  · simp [snake2camel, hs]
  · simp [camel2snake, ht]

/-- C6 witness: the identity behaviour at the concrete non-conforming
inputs A and a. -/
theorem C6_witness :
    is_snake_case ['A'] = false ∧ is_camel_case ['a'] = false ∧
      snake2camel ['A'] = ['A'] ∧ camel2snake ['a'] = ['a'] :=
  ⟨by decide, by decide,
    (C6_nonconforming_identity ['A'] ['a'] (by decide) (by decide)).1,
    (C6_nonconforming_identity ['A'] ['a'] (by decide) (by decide)).2⟩

/-- C7: `edit_line` is the literal replacement of every occurrence of the
source by the destination, for every word-boundary mode, and its result
does not depend on the mode; in particular the three modes `WHOLE_WORD`,
`ALLOW_UNDERSCORES` and `ANY_SEQUENCE` coincide. -/
theorem C7_edit_line_literal : ∀ (src dest line : List Char) (w w2 : Nat),
    edit_line src dest w line = strReplace src dest line ∧
      edit_line src dest w line = edit_line src dest w2 line ∧
      edit_line src dest WHOLE_WORD line = edit_line src dest ANY_SEQUENCE line ∧
      edit_line src dest ALLOW_UNDERSCORES line = edit_line src dest ANY_SEQUENCE line :=
  fun _ _ _ _ _ => ⟨rfl, rfl, rfl, rfl⟩

/-- C8: in diff mode `process_file` leaves the filesystem untouched for
every input and appends to standard output exactly the unified diff of
the original lines against the transformed lines, labelled with the
original path as from-file and the candidate path as to-file; when the
path is unreadable it aborts, again without mutation. -/
theorem C8_diff_no_mutation :
    ∀ (udiff : List (List Char) → List (List Char) → List Char → List Char → List (List Char))
      (src dest : List Char) (w : Nat) (path : List Char) (tonly : Bool)
      (fs : FileSys) (out : List (List Char)),
      process_file udiff src dest w path true tonly fs out =
        (fs path).map (fun f =>
          (fs, out ++ udiff f.lines (edit_text src dest w f.lines) path
            (candidate_path src dest w path tonly))) := by
  intro udiff src dest w path tonly fs out
  cases hfp : fs path with
  | none => simp [process_file, hfp]
  | some f => simp [process_file, hfp]

/-- C9: the candidate new path equals the original path in text-only mode
and the literal substitution otherwise; moreover a text-only non-diff run
rewrites only the content stored at the original path, renaming and
unlinking nothing. -/
theorem C9_text_only_no_rename : ∀ (src dest : List Char) (w : Nat) (path : List Char),
    candidate_path src dest w path true = path ∧
      candidate_path src dest w path false = strReplace src dest path ∧
      ∀ (udiff : List (List Char) → List (List Char) → List Char → List Char →
          List (List Char)) (fs : FileSys) (out : List (List Char)),
        process_file udiff src dest w path false true fs out =
          (fs path).map (fun f =>
            ((fun p => if p = path then some ⟨edit_text src dest w f.lines, f.mode⟩
              else fs p), out)) := by
  intro src dest w path
  refine ⟨rfl, rfl, ?_⟩
  intro udiff fs out
  cases hfp : fs path with
  | none => simp [process_file, hfp]
  | some f => simp [process_file, hfp, candidate_path]

/-- C10: with an empty source string, `edit_line` inserts the destination
at every character boundary, for every word-boundary mode and line; for a
non-empty destination it is therefore never the identity. -/
theorem C10_empty_source : ∀ (dest line : List Char) (w : Nat),
    edit_line [] dest w line = insertEverywhere dest line ∧
      (dest ≠ [] → edit_line [] dest w line ≠ line) := by
  intro dest line w
  have h1 : edit_line [] dest w line = insertEverywhere dest line :=
    strReplace_nil_src dest line
  refine ⟨h1, fun h heq => ?_⟩
  rw [h1] at heq
  exact insertEverywhere_ne dest line h heq

/-- C10 witness: the empty-source behaviour at the concrete inputs x and
ab, reproducing xaxbx. -/
theorem C10_witness :
    edit_line [] ['x'] ANY_SEQUENCE ['a', 'b'] = ['x', 'a', 'x', 'b', 'x'] ∧
      edit_line [] ['x'] ANY_SEQUENCE ['a', 'b'] ≠ ['a', 'b'] :=
  ⟨((C10_empty_source ['x'] ['a', 'b'] ANY_SEQUENCE).1).trans (by decide),
    (C10_empty_source ['x'] ['a', 'b'] ANY_SEQUENCE).2 (by decide)⟩
